import Mathlib

/-!
Verification of the request-processing pipeline of a GraphQL CRUD API
(Apollo server starter: auth context resolution, complexity gating,
response caching, resolver-level authorization).

The definitions below are a shallow embedding of the TypeScript source:
  - `src/plugins/caching.ts`   : response cache plugin (key generation,
    lookup with TTL freshness, store decision)
  - `src/plugins/complexityAnalysis.ts` : cost gate
  - `src/middleware/auth.ts`   : createContext, requireAuth, requireRole,
    requireAdmin, requireOwnership
  - `src/utils/jwt.ts`         : extractTokenFromHeader
  - `src/schema/resolvers/authResolver.ts` : logout, refreshToken
  - `src/schema/resolvers/postResolver.ts` : post query, deletePost
JavaScript `any` values reaching the auth helpers are modelled by `JsObj`
(records with optional fields, an absent field standing for `undefined`).
Times are integers in milliseconds (`Date.now()`); TTLs are in seconds as
in the source.  JSON numbers are modelled as integers.
-/

namespace ApolloStarter

/-! ## JSON values and `JSON.stringify`
Model of the JavaScript JSON value space and of `JSON.stringify` as used
by `generateCacheKey` in `src/plugins/caching.ts`.  Object fields keep
insertion order, string escaping follows `JSON.stringify` (quote,
backslash, the short control escapes and `\u00XX` for other control
characters); numbers are modelled as integers. -/

inductive Json where
  | null : Json
  | bool (b : Bool) : Json
  | num (n : Int) : Json
  | str (s : String) : Json
  | arr (items : List Json) : Json
  | obj (pairs : List (String × Json)) : Json

/-- Lower-case hexadecimal digit, as produced by `JSON.stringify` in
`\u00XX` escapes. -/
def hexDigit (n : Nat) : Char :=
  if n < 10 then Char.ofNat (48 + n) else Char.ofNat (87 + n)

/-- Escaping of one character inside a JSON string literal, following
`JSON.stringify`: `"` and `\` get a backslash, the control characters
with short escapes use them, remaining control characters become
`\u00XX`, and every other character is copied verbatim. -/
def escapeChar (c : Char) : List Char :=
  if c = '"' then ['\\', '"']
  else if c = '\\' then ['\\', '\\']
  else if c.toNat = 8 then ['\\', 'b']
  else if c.toNat = 9 then ['\\', 't']
  else if c.toNat = 10 then ['\\', 'n']
  else if c.toNat = 12 then ['\\', 'f']
  else if c.toNat = 13 then ['\\', 'r']
  else if c.toNat < 32 then
    ['\\', 'u', '0', '0', hexDigit (c.toNat / 16), hexDigit (c.toNat % 16)]
  else [c]

def escapeList : List Char → List Char
  | [] => []
  | c :: cs => escapeChar c ++ escapeList cs

/-- A JSON string literal: quote, escaped body, quote. -/
def quoteChars (s : String) : List Char :=
  '"' :: (escapeList s.data ++ ['"'])

/-- Decimal digits of a natural number, most significant first. -/
def natDigits (n : Nat) : List Char :=
  if h : n < 10 then [Char.ofNat (48 + n)]
  else natDigits (n / 10) ++ [Char.ofNat (48 + n % 10)]
termination_by n
decreasing_by
  exact Nat.div_lt_self (by omega) (by omega)

/-- Decimal rendering of an integer (JavaScript number rendering,
restricted to integers). -/
def intChars (i : Int) : List Char :=
  if i < 0 then '-' :: natDigits i.natAbs else natDigits i.toNat

mutual

/-- `JSON.stringify`, as a list of characters. -/
def jChars : Json → List Char
  | .num i => intChars i
  | .str s => quoteChars s
  | .arr es => '[' :: (arrChars es ++ [']'])
  | .obj fs => '{' :: (objChars fs ++ ['}'])
  | .bool true => 't' :: ['r', 'u', 'e']
  | .bool false => 'f' :: ['a', 'l', 's', 'e']
  | .null => 'n' :: ['u', 'l', 'l']

/-- Array elements joined by `,`. -/
def arrChars : List Json → List Char
  | [] => []
  | e :: rest =>
      jChars e ++ (match rest with
        | [] => []
        | _ :: _ => ',' :: arrChars rest)

/-- Object fields `"key":value` joined by `,`. -/
def objChars : List (String × Json) → List Char
  | [] => []
  | (k, v) :: rest =>
      quoteChars k ++ ':' :: jChars v ++ (match rest with
        | [] => []
        | _ :: _ => ',' :: objChars rest)

end

def stringify (v : Json) : String := ⟨jChars v⟩

/-! ## Cache key generation (`generateCacheKey`, src/plugins/caching.ts)

```ts
function generateCacheKey(request: any): string {
  const keyData = {
    query: request.query,
    variables: request.variables,
    operationName: request.operationName,
  };
  return crypto.createHash("sha256").update(JSON.stringify(keyData)).digest("hex");
}
```
`variables` and `operationName` may be `undefined`; `JSON.stringify`
omits object keys whose value is `undefined`.  The SHA-256 hex digest is
modelled as an abstract function `hash : String → String`. -/

/-- The `"variables"` member of the serialized key data; omitted when
the value is `undefined`. -/
def varSection : Option Json → List Char
  | some v => ',' :: (quoteChars "variables" ++ ':' :: jChars v)
  | none => []

/-- The `"operationName"` member of the serialized key data; omitted
when the value is `undefined`. -/
def nameSection : Option String → List Char
  | some s => ',' :: (quoteChars "operationName" ++ ':' :: quoteChars s)
  | none => []

/-- `JSON.stringify` of the `keyData` object, with `undefined`-valued
keys omitted, keys in insertion order `query`, `variables`,
`operationName`. -/
def keyDataChars (query : String) (vars : Option Json)
    (operationName : Option String) : List Char :=
  '{' ::
    (quoteChars "query" ++ ':' :: quoteChars query
      ++ varSection vars ++ nameSection operationName ++ ['}'])

/-- The operation fingerprint: digest of the serialized key data.
`hash` stands for the SHA-256 hex digest. -/
def generateCacheKey (hash : String → String) (query : String)
    (vars : Option Json) (operationName : Option String) : String :=
  hash ⟨keyDataChars query vars operationName⟩

/-! ## Response caching plugin (src/plugins/caching.ts)

The Redis backing store is modelled as an association list from full key
strings to entries (`setex` writes, `get` reads; physical TTL eviction is
the store dropping the binding).  Compression and the size ceiling only
affect how large payloads are serialized before storage and do not bear
on the lookup/store decisions verified here, so serialization is kept as
the entry itself. -/

/-- `CacheEntry` from the plugin: payload `data` (the `singleResult`
body, type `any`, modelled by a type parameter), creation time
`timestamp` in milliseconds (`Date.now()`), `ttl` in seconds. -/
structure CacheEntry (α : Type) where
  data : α
  timestamp : Int
  ttl : Int
deriving DecidableEq

/-- The GraphQL request as seen by the plugin hooks. -/
structure CacheRequest where
  query : String
  vars : Option Json
  operationName : Option String

/-- Plugin configuration (`CacheConfig`), with the values wired in
`src/app.ts`: `defaultTTL: 300`, `keyPrefix: "graphql:cache:"`,
`cachableOperations: ["query"]`,
`skipCache: (opName) => ["me", "notifications"].includes(opName || "")`. -/
structure CacheConfig where
  defaultTTL : Int := 300
  keyPrefix : String := "graphql:cache:"
  cachableOperations : List String := ["query"]
  skipCache : Option String → Bool :=
    fun opName => ["me", "currentUser", "notifications"].contains (opName.getD "")

/-- The configuration instantiated in `src/app.ts`. -/
def appCacheConfig : CacheConfig :=
  { defaultTTL := 300
    keyPrefix := "graphql:cache:"
    cachableOperations := ["query"]
    skipCache := fun opName => ["me", "notifications"].contains (opName.getD "") }

/-- Redis store model: `get`. -/
def redisGet {α : Type} (store : List (String × CacheEntry α)) (key : String) :
    Option (CacheEntry α) :=
  (store.find? (fun kv => kv.1 = key)).map (·.2)

/-- Redis store model: `setex` (binds `key`, replacing any previous
binding). -/
def redisSetex {α : Type} (store : List (String × CacheEntry α)) (key : String)
    (entry : CacheEntry α) : List (String × CacheEntry α) :=
  (key, entry) :: store.filter (fun kv => kv.1 ≠ key)

/-- JavaScript truthiness of the optional `operationName` string
(`undefined` and `""` are falsy). -/
def opNameTruthy (operationName : Option String) : Bool :=
  match operationName with
  | none => false
  | some n => n ≠ ""

/-- The store-eligibility test of `willSendResponse`:

```ts
if (request.operationName &&
    response.body.kind === "single" &&
    !response.body.singleResult.errors &&
    finalConfig.cachableOperations?.includes(request.operationName) &&
    !finalConfig.skipCache?.(request.operationName)) { ... }
```
Note the source compares the operation *name* against
`cachableOperations` here. -/
def shouldCacheResponse (cfg : CacheConfig) (request : CacheRequest)
    (hasErrors : Bool) : Bool :=
  opNameTruthy request.operationName
    && !hasErrors
    && cfg.cachableOperations.contains (request.operationName.getD "")
    && !cfg.skipCache request.operationName

/-- `willSendResponse`: on an eligible successful single response, write
the entry under the prefixed cache key with `defaultTTL`; otherwise
leave the store unchanged. -/
def willSendResponse {α : Type} (hash : String → String) (cfg : CacheConfig)
    (store : List (String × CacheEntry α)) (request : CacheRequest)
    (result : α) (hasErrors : Bool) (now : Int) :
    List (String × CacheEntry α) :=
  if shouldCacheResponse cfg request hasErrors then
    redisSetex store
      (cfg.keyPrefix ++ generateCacheKey hash request.query request.vars
        request.operationName)
      { data := result, timestamp := now, ttl := cfg.defaultTTL }
  else store

/-- A served cache hit: the cached payload plus the `X-Cache` headers set
on the short-circuit response. -/
structure CacheHit (α : Type) where
  data : α
  xCache : String
  xCacheAge : Int
deriving DecidableEq

/-- `responseForOperation`: attempt the cache short-circuit.

```ts
if (operationName &&
    finalConfig.cachableOperations?.includes("query") &&
    !finalConfig.skipCache?.(operationName)) {
  const cached = await finalConfig.redis.get(`${prefix}${key}`);
  if (cached) {
    const age = (now - cacheData.timestamp) / 1000;
    if (age < cacheData.ttl) { return HIT response; }
  }
}
return null;
```
The freshness comparison `(now - timestamp) / 1000 < ttl` over
JavaScript numbers is `now - timestamp < ttl * 1000` in milliseconds;
`X-Cache-Age` is `Math.floor(age)`, i.e. floor division by 1000. -/
def responseForOperation {α : Type} (hash : String → String)
    (cfg : CacheConfig) (store : List (String × CacheEntry α))
    (request : CacheRequest) (now : Int) : Option (CacheHit α) :=
  if opNameTruthy request.operationName
      && cfg.cachableOperations.contains "query"
      && !cfg.skipCache request.operationName then
    match redisGet store
        (cfg.keyPrefix ++ generateCacheKey hash request.query request.vars
          request.operationName) with
    | none => none
    | some entry =>
        if now - entry.timestamp < entry.ttl * 1000 then
          some { data := entry.data
                 xCache := "HIT"
                 xCacheAge := Int.fdiv (now - entry.timestamp) 1000 }
        else none
  else none

/-! ## Identity resolution (src/utils/jwt.ts, src/middleware/auth.ts) -/

/-- `TokenPayload` (src/types/index.ts). -/
structure TokenPayload where
  userId : String
  username : String
  email : String
  role : String
deriving DecidableEq

/-- A stored user document (`User` model): the fields consumed by the
pipeline.  `refreshToken` is the server-side session marker cleared by
logout / password change. -/
structure StoredUser where
  userId : String
  username : String
  email : String
  role : String
  refreshToken : Option String := none
deriving DecidableEq

/-- `User.findById` over the modelled store. -/
def findById (store : List StoredUser) (id : String) : Option StoredUser :=
  store.find? (fun u => u.userId = id)

/-- JavaScript `String.prototype.split` with a single-character
separator: `"".split(s) = [""]`, separators delimit (possibly empty)
groups. -/
def splitOnChar (sep : Char) : List Char → List (List Char)
  | [] => [[]]
  | c :: cs =>
      let r := splitOnChar sep cs
      if c = sep then [] :: r
      else
        match r with
        | [] => [[c]]
        | g :: gs => (c :: g) :: gs

/-- `JWTUtils.extractTokenFromHeader` (src/utils/jwt.ts):

```ts
if (!authHeader) return null;
const parts = authHeader.split(" ");
if (parts.length !== 2 || parts[0] !== "Bearer") return null;
return parts[1];
```
The absent header and the empty string (both falsy) yield `null`. -/
def extractTokenFromHeader (authHeader : Option String) : Option String :=
  match authHeader with
  | none => none
  | some h =>
      if h = "" then none
      else
        let parts := (splitOnChar ' ' h.data).map (fun l => String.mk l)
        if parts.length ≠ 2 ∨ parts.head? ≠ some "Bearer" then none
        else parts.get? 1

/-- `GraphQLContext` (src/types/index.ts). -/
structure GraphQLContext where
  user : Option StoredUser := none
  isAuthenticated : Bool
deriving DecidableEq

/-- `createContext` (src/middleware/auth.ts): resolve the Authorization
header to a context.  `verify` stands for
`JWTUtils.verifyAccessToken` (signature/expiry verification, `null` on
failure).

```ts
const token = JWTUtils.extractTokenFromHeader(authHeader);
if (!token) return { isAuthenticated: false };
try {
  const payload = JWTUtils.verifyAccessToken(token);
  if (!payload) return { isAuthenticated: false };
  const user = await User.findById(payload.userId);
  if (!user) return { isAuthenticated: false };
  return { user, isAuthenticated: true };
} catch { return { isAuthenticated: false }; }
``` -/
def createContext (verify : String → Option TokenPayload)
    (store : List StoredUser) (authHeader : Option String) : GraphQLContext :=
  match extractTokenFromHeader authHeader with
  | none => { isAuthenticated := false }
  | some token =>
      if token = "" then { isAuthenticated := false }
      else
        match verify token with
        | none => { isAuthenticated := false }
        | some payload =>
            match findById store payload.userId with
            | none => { isAuthenticated := false }
            | some user => { user := some user, isAuthenticated := true }

/-! ## Authorization helpers (src/middleware/auth.ts)

These take an `any` argument (`user`); at the call sites in the
resolvers they receive either the GraphQL context or a user document.
`JsObj` models such a value: each field is `none` when the underlying
JavaScript property is `undefined`. -/

/-- A JavaScript object as seen by the duck-typed auth helpers. -/
structure JsObj where
  user : Option StoredUser := none
  role : Option String := none
  objId : Option String := none
deriving DecidableEq

/-- The GraphQL context viewed as the `any` argument (its `role` and
`_id` properties are `undefined`). -/
def contextToJs (c : GraphQLContext) : JsObj := { user := c.user }

/-- A user document viewed as the `any` argument (its `user` property is
`undefined`). -/
def userToJs (u : StoredUser) : JsObj :=
  { role := some u.role, objId := some u.userId }

/-- Errors surfaced by resolvers: Apollo `AuthenticationError`
(classified `UNAUTHENTICATED`), explicit `GraphQLError`s with an
`extensions.code`, and JavaScript runtime `TypeError`s (surfaced as
internal server errors). -/
inductive ResolverError where
  | authenticationError (msg : String)
  | graphQLError (msg : String) (code : String)
  | typeError (msg : String)
deriving DecidableEq

/-- `requireAuth` (src/middleware/auth.ts):

```ts
export const requireAuth = (context: any) => {
  if (!context) {
    throw new AuthenticationError("You must be logged in to perform this action");
  }
  return context.user;
};
```
Only the falsiness of `context` itself is checked; `context.user` is
returned as-is (possibly `undefined`). -/
def requireAuth (context : Option GraphQLContext) :
    Except ResolverError (Option StoredUser) :=
  match context with
  | none =>
      .error (.authenticationError "You must be logged in to perform this action")
  | some c => .ok c.user

/-- `requireAuth` as invoked on the duck-typed `any` value inside
`requireRole`/`requireOwnership` (`requireAuth(user)`). -/
def requireAuthJs (x : Option JsObj) : Except ResolverError (Option StoredUser) :=
  match x with
  | none =>
      .error (.authenticationError "You must be logged in to perform this action")
  | some o => .ok o.user

/-- `requireRole`:

```ts
export const requireRole = (user: any, requiredRoles: string[]) => {
  requireAuth(user);
  if (!requiredRoles.includes(user.role)) {
    throw new AuthenticationError("Insufficient permissions. Required roles: ...");
  }
  return user;
};
```
An `undefined` role is never contained in the list. -/
def requireRole (x : Option JsObj) (requiredRoles : List String) :
    Except ResolverError JsObj :=
  match requireAuthJs x, x with
  | .error e, _ => .error e
  | .ok _, none =>
      .error (.authenticationError "You must be logged in to perform this action")
  | .ok _, some o =>
      if (match o.role with
          | some r => requiredRoles.contains r
          | none => false) then
        .ok o
      else
        .error (.authenticationError
          ("Insufficient permissions. Required roles: "
            ++ String.intercalate ", " requiredRoles))

/-- `requireAdmin`: `requireRole(user, ["admin"])` — note the lowercase
role string. -/
def requireAdmin (x : Option JsObj) : Except ResolverError JsObj :=
  requireRole x ["admin"]

/-- `requireOwnership`:

```ts
export const requireOwnership = (user: any, resourceUserId: string) => {
  requireAuth(user);
  if (user.role !== "admin" && user._id.toString() !== resourceUserId.toString()) {
    throw new AuthenticationError("You can only access your own resources");
  }
  return user;
};
```
If `user.role` is not `"admin"`, `user._id.toString()` is evaluated; on
an `undefined` `_id` this raises a `TypeError`. -/
def requireOwnership (x : Option JsObj) (resourceUserId : String) :
    Except ResolverError JsObj :=
  match requireAuthJs x, x with
  | .error e, _ => .error e
  | .ok _, none =>
      .error (.authenticationError "You must be logged in to perform this action")
  | .ok _, some o =>
      if o.role = some "admin" then .ok o
      else
        match o.objId with
        | none =>
            .error (.typeError
              "Cannot read properties of undefined (reading toString)")
        | some i =>
            if i ≠ resourceUserId then
              .error (.authenticationError "You can only access your own resources")
            else .ok o

/-! ## Resolvers (src/schema/resolvers/authResolver.ts,
src/schema/resolvers/postResolver.ts) -/

/-- A post document (`Post` model): the fields consumed by the
resolvers. -/
structure PostDoc where
  postId : String
  title : String
  content : String
  author : String
  published : Bool
deriving DecidableEq

/-- A comment document (`Comment` model). -/
structure CommentDoc where
  commentId : String
  content : String
  author : String
  post : String
deriving DecidableEq

/-- The document store consumed by the post/comment resolvers. -/
structure DB where
  posts : List PostDoc
  comments : List CommentDoc
deriving DecidableEq

def findPostById (posts : List PostDoc) (id : String) : Option PostDoc :=
  posts.find? (fun p => p.postId = id)

/-- `authResolvers.Mutation.logout`:

```ts
const user = requireAuth(context);
await User.findByIdAndUpdate(user._id, { $unset: { refreshToken: 1 } });
return true;
```
(any thrown error is re-wrapped as `LOGOUT_FAILED`).  The `$unset`
clears the stored refresh token of the subject. -/
def logout (store : List StoredUser) (context : GraphQLContext) :
    Except ResolverError Bool × List StoredUser :=
  match requireAuth (some context) with
  | .error _ =>
      (.error (.graphQLError "Logout failed" "LOGOUT_FAILED"), store)
  | .ok none =>
      -- `user._id` on an undefined user raises, caught as LOGOUT_FAILED
      (.error (.graphQLError "Logout failed" "LOGOUT_FAILED"), store)
  | .ok (some user) =>
      (.ok true,
        store.map (fun u =>
          if u.userId = user.userId then { u with refreshToken := none } else u))

/-- `authResolvers.Mutation.refreshToken`: verify the presented refresh
credential, re-fetch the subject with its stored `refreshToken`, reject
unless the stored marker equals the presented token, else issue a new
access token (`sign` stands for `JWTUtils.generateAccessToken`).

```ts
const payload = JWTUtils.verifyRefreshToken(refreshToken);
if (!payload) throw INVALID_REFRESH_TOKEN;
const user = await User.findById(payload.userId).select("+refreshToken");
if (!user || user.refreshToken !== refreshToken) throw INVALID_REFRESH_TOKEN;
const newAccessToken = JWTUtils.generateAccessToken({...});
return { accessToken: newAccessToken, expiresIn: 15 * 60 };
``` -/
def refreshTokenMutation (verifyRefresh : String → Option TokenPayload)
    (sign : TokenPayload → String) (store : List StoredUser)
    (refreshToken : String) : Except ResolverError String :=
  match verifyRefresh refreshToken with
  | none => .error (.graphQLError "Invalid refresh token" "INVALID_REFRESH_TOKEN")
  | some payload =>
      match findById store payload.userId with
      | none =>
          .error (.graphQLError "Invalid refresh token" "INVALID_REFRESH_TOKEN")
      | some user =>
          if user.refreshToken ≠ some refreshToken then
            .error (.graphQLError "Invalid refresh token" "INVALID_REFRESH_TOKEN")
          else
            .ok (sign
              { userId := user.userId, username := user.username
                email := user.email, role := user.role })

/-- `authResolvers.Query.me`: `const user = requireAuth(context); return
user;` — the schema declares `me: User` (nullable). -/
def meResolver (context : GraphQLContext) :
    Except ResolverError (Option StoredUser) :=
  requireAuth (some context)

/-- `postResolvers.Query.post`: fetch by id; an unpublished post is
reported as `POST_NOT_FOUND` unless the caller is authenticated and is
the author or has `role === "ADMIN"` (note the uppercase comparison).
`context.user!` on a user-less authenticated context raises a
`TypeError`. -/
def postQueryResolver (db : DB) (id : String) (context : GraphQLContext) :
    Except ResolverError PostDoc :=
  match findPostById db.posts id with
  | none => .error (.graphQLError "Post not found" "POST_NOT_FOUND")
  | some post =>
      if !post.published then
        if !context.isAuthenticated then
          .error (.graphQLError "Post not found" "POST_NOT_FOUND")
        else
          match context.user with
          | none =>
              .error (.typeError
                "Cannot read properties of undefined (reading toString)")
          | some user =>
              if user.userId ≠ post.author ∧ user.role ≠ "ADMIN" then
                .error (.graphQLError "Post not found" "POST_NOT_FOUND")
              else .ok post
      else .ok post

/-- The accept side of the resolver-level admin comparison used in
`postResolvers.Query.post` (and in the `User.posts` field resolver):
`user.role !== "ADMIN"` gates denial, so the check accepts exactly
`role === "ADMIN"`. -/
def resolverAdminCheck (u : StoredUser) : Bool := u.role = "ADMIN"

/-- `postResolvers.Mutation.deletePost`:

```ts
const post = await Post.findById(id);
if (!post) throw POST_NOT_FOUND;
requireOwnership(context, post.author.toString());
await Comment.deleteMany({ post: id });
await Post.findByIdAndDelete(id);
return true;
```
Note `requireOwnership` is handed the GraphQL *context* as its `user`
argument. -/
def deletePost (db : DB) (context : GraphQLContext) (id : String) :
    Except ResolverError Bool × DB :=
  match findPostById db.posts id with
  | none => (.error (.graphQLError "Post not found" "POST_NOT_FOUND"), db)
  | some post =>
      match requireOwnership (some (contextToJs context)) post.author with
      | .error e => (.error e, db)
      | .ok _ =>
          (.ok true,
            { posts := db.posts.filter (fun p => p.postId ≠ id)
              comments := db.comments.filter (fun c => c.post ≠ id) })

/-! ## Complexity analysis plugin (src/plugins/complexityAnalysis.ts)

The parsed operation is a tree of field selections.  With the schema
built from SDL there are no per-field complexity extensions, so
`fieldExtensionsEstimator` yields nothing and `simpleEstimator` charges
`defaultComplexity` (= `scalarCost`) per field, plus the children. -/

inductive Selection where
  | field (name : String) (subs : List Selection)

mutual

/-- `getComplexity` with
`simpleEstimator({ defaultComplexity: scalarCost })`: each field charges
`scalarCost` plus the complexity of its sub-selections. -/
def selComplexity (scalarCost : Nat) : Selection → Nat
  | .field _ subs => scalarCost + selsComplexity scalarCost subs

def selsComplexity (scalarCost : Nat) : List Selection → Nat
  | [] => 0
  | s :: rest => selComplexity scalarCost s + selsComplexity scalarCost rest

end

/-- The operation's complexity: sum over the top-level selection set. -/
def getComplexity (scalarCost : Nat) (op : List Selection) : Nat :=
  selsComplexity scalarCost op

mutual

/-- Modelled from the spec: "Depth is the maximum nesting of
object-typed field selections (scalar leaves do not increase depth)".
The source constructs `depthLimit(maximumDepth)` from the external
`graphql-depth-limit` package but never applies it, so no depth
computation exists in the source itself. -/
def selDepth : Selection → Nat
  | .field _ [] => 0
  | .field _ (s :: rest) => 1 + selsDepth (s :: rest)

def selsDepth : List Selection → Nat
  | [] => 0
  | s :: rest => max (selDepth s) (selsDepth rest)

end

mutual

/-- Number of fields in the operation: the resolver invocations incurred
when the operation executes. -/
def selCount : Selection → Nat
  | .field _ subs => 1 + selsCount subs

def selsCount : List Selection → Nat
  | [] => 0
  | s :: rest => selCount s + selsCount rest

end

/-- `ComplexityAnalysisConfig` with the `defaultConfig` values;
`src/app.ts` overrides `maximumComplexity` to 500. -/
structure ComplexityConfig where
  maximumComplexity : Nat := 1000
  maximumDepth : Nat := 10
  scalarCost : Nat := 1
  objectCost : Nat := 2
  listFactor : Nat := 10
  introspectionCost : Nat := 1000
deriving DecidableEq

/-- The configuration instantiated in `src/app.ts`
(`maximumComplexity: 500`, rest defaulted). -/
def appComplexityConfig : ComplexityConfig := { maximumComplexity := 500 }

/-- The extensions carried by the gate's error (`defaultConfig.createError`). -/
structure ComplexityErrorExtensions where
  code : String
  complexity : Nat
  maxComplexity : Nat
deriving DecidableEq

structure ComplexityError where
  message : String
  extensions : ComplexityErrorExtensions
deriving DecidableEq

/-- `defaultConfig.createError`:

```ts
new GraphQLError(`Query complexity limit of ${max} exceeded, found ${actual}.`, {
  extensions: { code: "QUERY_COMPLEXITY_LIMIT_EXCEEDED",
                complexity: actual, maxComplexity: max } })
``` -/
def createError (maxComplexity actual : Nat) : ComplexityError :=
  { message := "Query complexity limit of " ++ toString maxComplexity
      ++ " exceeded, found " ++ toString actual ++ "."
    extensions :=
      { code := "QUERY_COMPLEXITY_LIMIT_EXCEEDED"
        complexity := actual
        maxComplexity := maxComplexity } }

/-- `didResolveOperation`: compute the complexity and throw
`createError` when it exceeds `maximumComplexity`.  The source then
builds `depthValidationRules = [depthLimit(maximumDepth)]` but never
applies them, so no depth check takes place. -/
def didResolveOperation (cfg : ComplexityConfig) (op : List Selection) :
    Except ComplexityError Nat :=
  let complexity := getComplexity cfg.scalarCost op
  if complexity > cfg.maximumComplexity then
    .error (createError cfg.maximumComplexity complexity)
  else .ok complexity

/-- The shaped top-level outcome of one operation. -/
structure PipelineOutcome where
  dataPresent : Bool
  errors : List ComplexityError
  resolverCalls : Nat
deriving DecidableEq

/-- Modelled from the spec: the Execution Pipeline stage machine of
§4.5 — the orchestration (`Receive → ... → EvaluateCost → ... →
Execute`) lives in the external Apollo Server framework, not in the
source; a `didResolveOperation` error short-circuits to a single
top-level error with `data: null` before any resolver runs, otherwise
every requested field's resolver executes. -/
def runPipeline (cfg : ComplexityConfig) (op : List Selection) :
    PipelineOutcome :=
  match didResolveOperation cfg op with
  | .error e => { dataPresent := false, errors := [e], resolverCalls := 0 }
  | .ok _ => { dataPresent := true, errors := [], resolverCalls := selsCount op }

/-- A chain of nested single-field selections: `chain 0` is a leaf,
`chain (n+1)` nests one level deeper. -/
def chainSelection : Nat → Selection
  | 0 => .field "leaf" []
  | n + 1 => .field "level" [chainSelection n]

/-! ## Auxiliary definitions for the fingerprint analysis

`escParse`/`hexVal` invert one step of string escaping; `digitsVal`
re-reads a digit run; `ctorKind`/`kindOf` classify the first character
of a serialized JSON value.  They are proof devices, not part of the
source model. -/

/-- Value of a lower-case hexadecimal digit character. -/
def hexVal (c : Char) : Nat :=
  if c.toNat ≤ 57 then c.toNat - 48 else c.toNat - 87

/-- Inverse of `escapeChar` on one escaped unit. -/
def escParse : List Char → Option (Char × List Char)
  | [] => none
  | c :: rest =>
      if c ≠ '\\' then some (c, rest)
      else
        match rest with
        | [] => none
        | d :: rest2 =>
            if d = '"' then some ('"', rest2)
            else if d = '\\' then some ('\\', rest2)
            else if d = 'b' then some (Char.ofNat 8, rest2)
            else if d = 't' then some (Char.ofNat 9, rest2)
            else if d = 'n' then some (Char.ofNat 10, rest2)
            else if d = 'f' then some (Char.ofNat 12, rest2)
            else if d = 'r' then some (Char.ofNat 13, rest2)
            else if d = 'u' then
              match rest2 with
              | '0' :: '0' :: h1 :: h2 :: rest3 =>
                  some (Char.ofNat (hexVal h1 * 16 + hexVal h2), rest3)
              | _ => none
            else none

/-- A decimal digit character. -/
def isDig (c : Char) : Prop := 48 ≤ c.toNat ∧ c.toNat ≤ 57

instance (c : Char) : Decidable (isDig c) := by
  unfold isDig
  exact inferInstance

/-- The list does not begin with a decimal digit (so it cannot extend a
maximal digit run). -/
def noDigHead : List Char → Prop
  | [] => True
  | c :: _ => ¬ isDig c

/-- Numeric value of a digit run. -/
def digitsVal (l : List Char) : Nat :=
  l.foldl (fun a c => a * 10 + (c.toNat - 48)) 0

/-- Class of a serialized JSON value by its constructor (booleans
merged). -/
def ctorKind : Json → Nat
  | .null => 0
  | .bool _ => 1
  | .str _ => 3
  | .arr _ => 4
  | .obj _ => 5
  | .num _ => 6

/-- Class of a first character of a serialized JSON value. -/
def kindOf (c : Char) : Nat :=
  if c = 'n' then 0
  else if c = 't' then 1
  else if c = 'f' then 1
  else if c = '"' then 3
  else if c = '[' then 4
  else if c = '{' then 5
  else 6

/-! ## Theorems -/

/-- `Char.ofNat`/`Char.toNat` roundtrip on the ASCII range. -/
theorem toNat_ofNat_small : ∀ k < 128, (Char.ofNat k).toNat = k := by decide

/-- `Char.toNat` is injective. -/
theorem charToNat_inj {c c' : Char} (h : c.toNat = c'.toNat) : c = c' := by
  have h1 : Char.ofNat c.toNat = c := Char.ofNat_toNat c
  rw [h, Char.ofNat_toNat] at h1
  exact h1.symm

/-- `hexVal` inverts `hexDigit` below 16. -/
theorem hexVal_hexDigit : ∀ k < 16, hexVal (hexDigit k) = k := by decide

/-- `escParse` inverts `escapeChar`. -/
theorem escParse_escapeChar (c : Char) (rest : List Char) :
    escParse (escapeChar c ++ rest) = some (c, rest) := by
  unfold escapeChar
  split_ifs with h1 h2 h3 h4 h5 h6 h7 h8
  · subst h1
    rfl
  · subst h2
    rfl
  · have hc : Char.ofNat 8 = c := by
      rw [← h3]
      exact Char.ofNat_toNat c
    exact congrArg (fun x => some (x, rest)) hc
  · have hc : Char.ofNat 9 = c := by
      rw [← h4]
      exact Char.ofNat_toNat c
    exact congrArg (fun x => some (x, rest)) hc
  · have hc : Char.ofNat 10 = c := by
      rw [← h5]
      exact Char.ofNat_toNat c
    exact congrArg (fun x => some (x, rest)) hc
  · have hc : Char.ofNat 12 = c := by
      rw [← h6]
      exact Char.ofNat_toNat c
    exact congrArg (fun x => some (x, rest)) hc
  · have hc : Char.ofNat 13 = c := by
      rw [← h7]
      exact Char.ofNat_toNat c
    exact congrArg (fun x => some (x, rest)) hc
  · have e1 : hexVal (hexDigit (c.toNat / 16)) = c.toNat / 16 :=
      hexVal_hexDigit _ (by omega)
    have e2 : hexVal (hexDigit (c.toNat % 16)) = c.toNat % 16 :=
      hexVal_hexDigit _ (by omega)
    have hc : Char.ofNat
        (hexVal (hexDigit (c.toNat / 16)) * 16 + hexVal (hexDigit (c.toNat % 16))) = c := by
      rw [e1, e2]
      have hrec : c.toNat / 16 * 16 + c.toNat % 16 = c.toNat := by omega
      rw [hrec]
      exact Char.ofNat_toNat c
    exact congrArg (fun x => some (x, rest)) hc
  · simp [escParse, h2]

/-- Two escaped units agreeing as prefixes coincide. -/
theorem escapeChar_cancel {c c' : Char} {as bs : List Char}
    (h : escapeChar c ++ as = escapeChar c' ++ bs) : c = c' ∧ as = bs := by
  have h1 := escParse_escapeChar c as
  have h2 := escParse_escapeChar c' bs
  rw [h, h2] at h1
  simp only [Option.some.injEq, Prod.mk.injEq] at h1
  exact ⟨h1.1.symm, h1.2.symm⟩

/-- `escapeChar` never produces the empty list. -/
theorem escapeChar_ne_nil (c : Char) : escapeChar c ≠ [] := by
  unfold escapeChar
  split_ifs <;> simp

/-- An escaped unit never begins with an unescaped quote. -/
theorem escapeChar_head_ne_quote {c e : Char} {es : List Char}
    (h : escapeChar c = e :: es) : e ≠ '"' := by
  unfold escapeChar at h
  split_ifs at h with h1 h2 h3 h4 h5 h6 h7 h8 <;>
    simp only [List.cons.injEq] at h
  · rw [← h.1]
    decide
  · rw [← h.1]
    decide
  · rw [← h.1]
    decide
  · rw [← h.1]
    decide
  · rw [← h.1]
    decide
  · rw [← h.1]
    decide
  · rw [← h.1]
    decide
  · rw [← h.1]
    decide
  · rw [← h.1]
    exact h1

/-- Escaped string bodies ending at an unescaped quote cancel. -/
theorem escapeList_quote_cancel :
    ∀ (xs ys : List Char) (as bs : List Char),
      escapeList xs ++ '"' :: as = escapeList ys ++ '"' :: bs →
      xs = ys ∧ as = bs := by
  intro xs
  induction xs with
  | nil =>
    intro ys as bs h
    cases ys with
    | nil =>
      simp [escapeList] at h
      exact ⟨rfl, h⟩
    | cons y ys' =>
      exfalso
      simp only [escapeList, List.nil_append, List.append_assoc] at h
      cases hE : escapeChar y with
      | nil => exact escapeChar_ne_nil y hE
      | cons e es =>
        rw [hE] at h
        simp only [List.cons_append, List.cons.injEq] at h
        exact escapeChar_head_ne_quote hE h.1.symm
  | cons x xs' ih =>
    intro ys as bs h
    cases ys with
    | nil =>
      exfalso
      simp only [escapeList, List.nil_append, List.append_assoc] at h
      cases hE : escapeChar x with
      | nil => exact escapeChar_ne_nil x hE
      | cons e es =>
        rw [hE] at h
        simp only [List.cons_append, List.cons.injEq] at h
        exact escapeChar_head_ne_quote hE h.1
    | cons y ys' =>
      simp only [escapeList, List.append_assoc] at h
      obtain ⟨hxy, ht⟩ := escapeChar_cancel h
      obtain ⟨hxs, has⟩ := ih ys' as bs ht
      exact ⟨by rw [hxy, hxs], has⟩

/-- JSON string literals cancel. -/
theorem quoteChars_cancel {s s' : String} {as bs : List Char}
    (h : quoteChars s ++ as = quoteChars s' ++ bs) : s = s' ∧ as = bs := by
  unfold quoteChars at h
  simp only [List.cons_append, List.append_assoc, List.singleton_append,
    List.cons.injEq, true_and] at h
  obtain ⟨hd, has⟩ := escapeList_quote_cancel s.data s'.data as bs h
  refine ⟨?_, has⟩
  cases s
  cases s'
  exact congrArg String.mk hd

/-- Every character of a decimal rendering is a digit. -/
theorem natDigits_all_dig : ∀ n : Nat, ∀ c ∈ natDigits n, isDig c := by
  intro n
  induction n using Nat.strong_induction_on with
  | _ n ih =>
    intro c hc
    by_cases hn : n < 10
    · rw [natDigits, dif_pos hn] at hc
      simp only [List.mem_singleton] at hc
      subst hc
      have ht : (Char.ofNat (48 + n)).toNat = 48 + n :=
        toNat_ofNat_small _ (by omega)
      exact ⟨by omega, by omega⟩
    · rw [natDigits, dif_neg hn] at hc
      rcases List.mem_append.mp hc with hc | hc
      · exact ih (n / 10) (Nat.div_lt_self (by omega) (by omega)) c hc
      · simp only [List.mem_singleton] at hc
        subst hc
        have hm : n % 10 < 10 := Nat.mod_lt _ (by omega)
        have ht : (Char.ofNat (48 + n % 10)).toNat = 48 + n % 10 :=
          toNat_ofNat_small _ (by omega)
        exact ⟨by omega, by omega⟩

/-- A decimal rendering is never empty. -/
theorem natDigits_ne_nil (n : Nat) : natDigits n ≠ [] := by
  rw [natDigits]
  split
  · simp
  · simp

/-- Reading back a digit run extended by one digit. -/
theorem digitsVal_append_singleton (xs : List Char) (c : Char) :
    digitsVal (xs ++ [c]) = digitsVal xs * 10 + (c.toNat - 48) := by
  simp [digitsVal, List.foldl_append]

/-- `digitsVal` inverts `natDigits`. -/
theorem digitsVal_natDigits : ∀ n : Nat, digitsVal (natDigits n) = n := by
  intro n
  induction n using Nat.strong_induction_on with
  | _ n ih =>
    by_cases hn : n < 10
    · rw [natDigits, dif_pos hn]
      have ht : (Char.ofNat (48 + n)).toNat = 48 + n :=
        toNat_ofNat_small _ (by omega)
      simp [digitsVal, ht]
    · rw [natDigits, dif_neg hn, digitsVal_append_singleton,
        ih (n / 10) (Nat.div_lt_self (by omega) (by omega))]
      have ht : (Char.ofNat (48 + n % 10)).toNat = 48 + n % 10 :=
        toNat_ofNat_small _ (by omega)
      omega

/-- Decimal renderings are injective. -/
theorem natDigits_inj {a b : Nat} (h : natDigits a = natDigits b) : a = b := by
  have ha := digitsVal_natDigits a
  rw [h, digitsVal_natDigits] at ha
  omega

/-- Two maximal digit runs agreeing as prefixes coincide. -/
theorem digitRun_cancel :
    ∀ (ds es as bs : List Char),
      (∀ c ∈ ds, isDig c) → (∀ c ∈ es, isDig c) →
      noDigHead as → noDigHead bs →
      ds ++ as = es ++ bs → ds = es ∧ as = bs := by
  intro ds
  induction ds with
  | nil =>
    intro es as bs _ hes ha _ h
    cases es with
    | nil => exact ⟨rfl, h⟩
    | cons e es' =>
      exfalso
      simp only [List.nil_append, List.cons_append] at h
      rw [h] at ha
      exact ha (hes e (List.mem_cons_self _ _))
  | cons d ds' ih =>
    intro es as bs hds hes ha hb h
    cases es with
    | nil =>
      exfalso
      simp only [List.nil_append, List.cons_append] at h
      rw [← h] at hb
      exact hb (hds d (List.mem_cons_self _ _))
    | cons e es' =>
      simp only [List.cons_append, List.cons.injEq] at h
      obtain ⟨hde, ht⟩ := h
      obtain ⟨hds', has⟩ := ih es' as bs
        (fun c hc => hds c (List.mem_cons_of_mem _ hc))
        (fun c hc => hes c (List.mem_cons_of_mem _ hc)) ha hb ht
      exact ⟨by rw [hde, hds'], has⟩

/-- An integer rendering begins with a minus sign or a digit. -/
theorem intChars_head (i : Int) :
    ∃ c cs, intChars i = c :: cs ∧ (c = '-' ∨ isDig c) := by
  unfold intChars
  split_ifs with h
  · exact ⟨'-', natDigits i.natAbs, rfl, Or.inl rfl⟩
  · cases hd : natDigits i.toNat with
    | nil => exact absurd hd (natDigits_ne_nil _)
    | cons c cs =>
      exact ⟨c, cs, rfl,
        Or.inr (natDigits_all_dig _ c (hd ▸ List.mem_cons_self c cs))⟩

/-- Integer renderings followed by non-digits cancel. -/
theorem intChars_cancel {i j : Int} {as bs : List Char}
    (ha : noDigHead as) (hb : noDigHead bs)
    (h : intChars i ++ as = intChars j ++ bs) : i = j ∧ as = bs := by
  unfold intChars at h
  by_cases hi : i < 0 <;> by_cases hj : j < 0 <;>
    simp only [hi, hj, if_true, if_false, if_pos, if_neg, not_false_iff] at h
  · simp only [List.cons_append, List.cons.injEq, true_and] at h
    obtain ⟨hd, ht⟩ := digitRun_cancel _ _ _ _
      (natDigits_all_dig _) (natDigits_all_dig _) ha hb h
    have := natDigits_inj hd
    exact ⟨by omega, ht⟩
  · exfalso
    simp only [List.cons_append] at h
    cases hd : natDigits j.toNat with
    | nil => exact absurd hd (natDigits_ne_nil _)
    | cons c cs =>
      rw [hd] at h
      simp only [List.cons_append, List.cons.injEq] at h
      have hdig : isDig c := natDigits_all_dig _ c (hd ▸ List.mem_cons_self c cs)
      rw [← h.1] at hdig
      exact absurd hdig (by decide)
  · exfalso
    simp only [List.cons_append] at h
    cases hd : natDigits i.toNat with
    | nil => exact absurd hd (natDigits_ne_nil _)
    | cons c cs =>
      rw [hd] at h
      simp only [List.cons_append, List.cons.injEq] at h
      have hdig : isDig c := natDigits_all_dig _ c (hd ▸ List.mem_cons_self c cs)
      rw [h.1] at hdig
      exact absurd hdig (by decide)
  · obtain ⟨hd, ht⟩ := digitRun_cancel _ _ _ _
      (natDigits_all_dig _) (natDigits_all_dig _) ha hb h
    have := natDigits_inj hd
    exact ⟨by omega, ht⟩

/-- A serialized JSON value is never empty. -/
theorem jChars_ne_nil : ∀ v : Json, jChars v ≠ [] := by
  intro v
  cases v with
  | null => simp [jChars]
  | bool b => cases b <;> simp [jChars]
  | num i =>
    obtain ⟨c, cs, hc, _⟩ := intChars_head i
    simp [jChars, hc]
  | str s => simp [jChars, quoteChars]
  | arr es => simp [jChars]
  | obj fs => simp [jChars]

/-- The first character of a serialized JSON value determines the
constructor class. -/
theorem jChars_head_kind :
    ∀ (v : Json) (c : Char) (cs : List Char),
      jChars v = c :: cs → kindOf c = ctorKind v := by
  intro v c cs h
  cases v with
  | null =>
    simp only [jChars, List.cons.injEq] at h
    rw [← h.1]
    rfl
  | bool b =>
    cases b <;> simp only [jChars, List.cons.injEq] at h <;> rw [← h.1] <;> rfl
  | num i =>
    obtain ⟨c2, cs2, hc, hkind⟩ := intChars_head i
    have : c2 = c := by
      have := h
      rw [show jChars (Json.num i) = intChars i from rfl, hc] at this
      exact (List.cons.injEq .. ▸ this).1
    subst this
    rcases hkind with rfl | hdig
    · rfl
    · unfold kindOf
      rw [if_neg, if_neg, if_neg, if_neg, if_neg, if_neg]
      · rfl
      all_goals
        intro hcc
        rw [hcc] at hdig
        exact absurd hdig (by decide)
  | str s =>
    simp only [jChars, quoteChars, List.cons.injEq] at h
    rw [← h.1]
    rfl
  | arr es =>
    simp only [jChars, List.cons.injEq] at h
    rw [← h.1]
    rfl
  | obj fs =>
    simp only [jChars, List.cons.injEq] at h
    rw [← h.1]
    rfl

/-- A serialized JSON value never begins with a closing bracket, brace
or comma. -/
theorem jChars_head_ne_closing :
    ∀ (v : Json) (c : Char) (cs : List Char),
      jChars v = c :: cs → ¬(c = ']' ∨ c = '}' ∨ c = ',') := by
  intro v c cs h
  have hk := jChars_head_kind v c cs h
  intro hc
  cases v with
  | num i =>
    obtain ⟨c2, cs2, hc2, hkind⟩ := intChars_head i
    have : c2 = c := by
      rw [show jChars (Json.num i) = intChars i from rfl, hc2] at h
      exact (List.cons.injEq .. ▸ h).1
    subst this
    rcases hkind with rfl | hdig
    · rcases hc with h1 | h1 | h1 <;> exact absurd h1 (by decide)
    · rcases hc with rfl | rfl | rfl <;> exact absurd hdig (by decide)
  | null => rcases hc with rfl | rfl | rfl <;> simp [ctorKind, kindOf] at hk
  | bool b => rcases hc with rfl | rfl | rfl <;> simp [ctorKind, kindOf] at hk
  | str s => rcases hc with rfl | rfl | rfl <;> simp [ctorKind, kindOf] at hk
  | arr es => rcases hc with rfl | rfl | rfl <;> simp [ctorKind, kindOf] at hk
  | obj fs => rcases hc with rfl | rfl | rfl <;> simp [ctorKind, kindOf] at hk

mutual

/-- Serialized JSON values followed by non-digit characters cancel: the
serialization is a delimited code. -/
theorem jChars_cancel (v v' : Json) (as bs : List Char)
    (ha : noDigHead as) (hb : noDigHead bs)
    (h : jChars v ++ as = jChars v' ++ bs) : v = v' ∧ as = bs := by
  have hkind : ctorKind v = ctorKind v' := by
    cases hv1 : jChars v with
    | nil => exact absurd hv1 (jChars_ne_nil v)
    | cons c cs =>
      cases hv2 : jChars v' with
      | nil => exact absurd hv2 (jChars_ne_nil v')
      | cons c2 cs2 =>
        rw [hv1, hv2] at h
        simp only [List.cons_append, List.cons.injEq] at h
        rw [← jChars_head_kind v c cs hv1, ← jChars_head_kind v' c2 cs2 hv2, h.1]
  cases v <;> cases v' <;>
    try (simp only [ctorKind] at hkind; exact absurd hkind (by decide))
  case null.null =>
    simp only [jChars, List.cons_append, List.nil_append, List.cons.injEq,
      true_and] at h
    exact ⟨rfl, h⟩
  case bool.bool b b' =>
    cases b <;> cases b' <;>
      simp only [jChars, List.cons_append, List.nil_append,
        List.cons.injEq, true_and] at h
    · exact ⟨rfl, h⟩
    · exact absurd h.1 (by decide)
    · exact absurd h.1 (by decide)
    · exact ⟨rfl, h⟩
  case num.num i j =>
    obtain ⟨hij, has⟩ := intChars_cancel ha hb h
    exact ⟨by rw [hij], has⟩
  case str.str s s' =>
    obtain ⟨hss, has⟩ := quoteChars_cancel h
    exact ⟨by rw [hss], has⟩
  case arr.arr l l' =>
    have h2 : arrChars l ++ ']' :: as = arrChars l' ++ ']' :: bs := by
      have := h
      simp only [jChars, List.cons_append, List.append_assoc,
        List.singleton_append, List.cons.injEq, true_and] at this
      exact this
    obtain ⟨hl, has⟩ := arrChars_cancel l l' as bs h2
    exact ⟨by rw [hl], has⟩
  case obj.obj l l' =>
    have h2 : objChars l ++ '}' :: as = objChars l' ++ '}' :: bs := by
      have := h
      simp only [jChars, List.cons_append, List.append_assoc,
        List.singleton_append, List.cons.injEq, true_and] at this
      exact this
    obtain ⟨hl, has⟩ := objChars_cancel l l' as bs h2
    exact ⟨by rw [hl], has⟩

/-- Serialized array bodies ending at `]` cancel. -/
theorem arrChars_cancel (l l' : List Json) (as bs : List Char)
    (h : arrChars l ++ ']' :: as = arrChars l' ++ ']' :: bs) :
    l = l' ∧ as = bs := by
  cases l with
  | nil =>
    cases l' with
    | nil =>
      simp only [arrChars, List.nil_append, List.cons.injEq, true_and] at h
      exact ⟨rfl, h⟩
    | cons e rest =>
      exfalso
      cases hE : jChars e with
      | nil => exact jChars_ne_nil e hE
      | cons c cs =>
        simp only [arrChars, hE, List.nil_append, List.cons_append,
          List.append_assoc, List.cons.injEq] at h
        exact jChars_head_ne_closing e c cs hE (Or.inl h.1.symm)
  | cons e rest =>
    cases l' with
    | nil =>
      exfalso
      cases hE : jChars e with
      | nil => exact jChars_ne_nil e hE
      | cons c cs =>
        simp only [arrChars, hE, List.nil_append, List.cons_append,
          List.append_assoc, List.cons.injEq] at h
        exact jChars_head_ne_closing e c cs hE (Or.inl h.1)
    | cons e' rest' =>
      cases rest with
      | nil =>
        cases rest' with
        | nil =>
          have h2 : jChars e ++ ']' :: as = jChars e' ++ ']' :: bs := by
            simpa only [arrChars, List.append_nil, List.append_assoc] using h
          obtain ⟨he, ht⟩ := jChars_cancel e e' _ _
            (by exact (by decide : ¬ isDig ']'))
            (by exact (by decide : ¬ isDig ']')) h2
          simp only [List.cons.injEq, true_and] at ht
          exact ⟨by rw [he], ht⟩
        | cons f' fs' =>
          exfalso
          have h2 : jChars e ++ ']' :: as =
              jChars e' ++ ',' :: (arrChars (f' :: fs') ++ ']' :: bs) := by
            simpa only [arrChars, List.append_nil, List.append_assoc,
              List.cons_append] using h
          obtain ⟨_, ht⟩ := jChars_cancel e e' _ _
            (by exact (by decide : ¬ isDig ']'))
            (by exact (by decide : ¬ isDig ',')) h2
          simp only [List.cons.injEq] at ht
          exact absurd ht.1 (by decide)
      | cons f fs =>
        cases rest' with
        | nil =>
          exfalso
          have h2 : jChars e ++ ',' :: (arrChars (f :: fs) ++ ']' :: as) =
              jChars e' ++ ']' :: bs := by
            simpa only [arrChars, List.append_nil, List.append_assoc,
              List.cons_append] using h
          obtain ⟨_, ht⟩ := jChars_cancel e e' _ _
            (by exact (by decide : ¬ isDig ','))
            (by exact (by decide : ¬ isDig ']')) h2
          simp only [List.cons.injEq] at ht
          exact absurd ht.1 (by decide)
        | cons f' fs' =>
          have h2 : jChars e ++ ',' :: (arrChars (f :: fs) ++ ']' :: as) =
              jChars e' ++ ',' :: (arrChars (f' :: fs') ++ ']' :: bs) := by
            simpa only [arrChars, List.append_assoc, List.cons_append] using h
          obtain ⟨he, ht⟩ := jChars_cancel e e' _ _
            (by exact (by decide : ¬ isDig ','))
            (by exact (by decide : ¬ isDig ',')) h2
          simp only [List.cons.injEq, true_and] at ht
          obtain ⟨hr, has⟩ := arrChars_cancel (f :: fs) (f' :: fs') as bs ht
          exact ⟨by rw [he, hr], has⟩

/-- Serialized object bodies ending at `}` cancel. -/
theorem objChars_cancel (l l' : List (String × Json)) (as bs : List Char)
    (h : objChars l ++ '}' :: as = objChars l' ++ '}' :: bs) :
    l = l' ∧ as = bs := by
  cases l with
  | nil =>
    cases l' with
    | nil =>
      simp only [objChars, List.nil_append, List.cons.injEq, true_and] at h
      exact ⟨rfl, h⟩
    | cons f rest =>
      exfalso
      obtain ⟨k, v⟩ := f
      simp only [objChars, quoteChars, List.nil_append, List.cons_append,
        List.append_assoc, List.cons.injEq] at h
      exact absurd h.1 (by decide)
  | cons f rest =>
    obtain ⟨k, v⟩ := f
    cases l' with
    | nil =>
      exfalso
      simp only [objChars, quoteChars, List.nil_append, List.cons_append,
        List.append_assoc, List.cons.injEq] at h
      exact absurd h.1 (by decide)
    | cons f' rest' =>
      obtain ⟨k', v'⟩ := f'
      cases rest with
      | nil =>
        cases rest' with
        | nil =>
          have h2 : quoteChars k ++ (':' :: (jChars v ++ '}' :: as)) =
              quoteChars k' ++ (':' :: (jChars v' ++ '}' :: bs)) := by
            simpa only [objChars, List.append_nil, List.append_assoc,
              List.cons_append] using h
          obtain ⟨hk, ht⟩ := quoteChars_cancel h2
          simp only [List.cons.injEq, true_and] at ht
          obtain ⟨hv, ht2⟩ := jChars_cancel v v' _ _
            (by exact (by decide : ¬ isDig '\x7d'))
            (by exact (by decide : ¬ isDig '\x7d')) ht
          simp only [List.cons.injEq, true_and] at ht2
          exact ⟨by rw [hk, hv], ht2⟩
        | cons g' gs' =>
          exfalso
          have h2 : quoteChars k ++ (':' :: (jChars v ++ '}' :: as)) =
              quoteChars k' ++ (':' :: (jChars v' ++
                ',' :: (objChars (g' :: gs') ++ '}' :: bs))) := by
            simpa only [objChars, List.append_nil, List.append_assoc,
              List.cons_append] using h
          obtain ⟨_, ht⟩ := quoteChars_cancel h2
          simp only [List.cons.injEq, true_and] at ht
          obtain ⟨_, ht2⟩ := jChars_cancel v v' _ _
            (by exact (by decide : ¬ isDig '\x7d'))
            (by exact (by decide : ¬ isDig ',')) ht
          simp only [List.cons.injEq] at ht2
          exact absurd ht2.1 (by decide)
      | cons g gs =>
        cases rest' with
        | nil =>
          exfalso
          have h2 : quoteChars k ++ (':' :: (jChars v ++
              ',' :: (objChars (g :: gs) ++ '}' :: as))) =
              quoteChars k' ++ (':' :: (jChars v' ++ '}' :: bs)) := by
            simpa only [objChars, List.append_nil, List.append_assoc,
              List.cons_append] using h
          obtain ⟨_, ht⟩ := quoteChars_cancel h2
          simp only [List.cons.injEq, true_and] at ht
          obtain ⟨_, ht2⟩ := jChars_cancel v v' _ _
            (by exact (by decide : ¬ isDig ','))
            (by exact (by decide : ¬ isDig '\x7d')) ht
          simp only [List.cons.injEq] at ht2
          exact absurd ht2.1 (by decide)
        | cons g' gs' =>
          have h2 : quoteChars k ++ (':' :: (jChars v ++
              ',' :: (objChars (g :: gs) ++ '}' :: as))) =
              quoteChars k' ++ (':' :: (jChars v' ++
                ',' :: (objChars (g' :: gs') ++ '}' :: bs))) := by
            simpa only [objChars, List.append_assoc, List.cons_append] using h
          obtain ⟨hk, ht⟩ := quoteChars_cancel h2
          simp only [List.cons.injEq, true_and] at ht
          obtain ⟨hv, ht2⟩ := jChars_cancel v v' _ _
            (by exact (by decide : ¬ isDig ','))
            (by exact (by decide : ¬ isDig ',')) ht
          simp only [List.cons.injEq, true_and] at ht2
          obtain ⟨hr, has⟩ := objChars_cancel (g :: gs) (g' :: gs') as bs ht2
          exact ⟨by rw [hk, hv, hr], has⟩

end

/-- The `"operationName"` section (with its closing brace) determines
the operation name. -/
theorem nameSection_inj (n n' : Option String)
    (h : nameSection n ++ ['}'] = nameSection n' ++ ['}']) : n = n' := by
  cases n with
  | none =>
    cases n' with
    | none => rfl
    | some s' =>
      exfalso
      simp only [nameSection, List.nil_append, List.cons_append,
        List.append_assoc, List.cons.injEq] at h
      exact absurd h.1 (by decide)
  | some s =>
    cases n' with
    | none =>
      exfalso
      simp only [nameSection, List.nil_append, List.cons_append,
        List.append_assoc, List.cons.injEq] at h
      exact absurd h.1 (by decide)
    | some s' =>
      simp only [nameSection, List.cons_append, List.append_assoc,
        List.cons.injEq, true_and] at h
      obtain ⟨_, ht⟩ := quoteChars_cancel h
      simp only [List.cons.injEq, true_and] at ht
      obtain ⟨hs, _⟩ := quoteChars_cancel ht
      rw [hs]

/-- The serialized key data determines the three fingerprint inputs:
`JSON.stringify` of the key object is injective in (query, variables,
operationName). -/
theorem keyDataChars_inj (q q' : String) (v v' : Option Json)
    (n n' : Option String)
    (h : keyDataChars q v n = keyDataChars q' v' n') :
    q = q' ∧ v = v' ∧ n = n' := by
  unfold keyDataChars at h
  simp only [List.cons.injEq, List.append_assoc, List.cons_append,
    true_and] at h
  obtain ⟨_, ht⟩ := quoteChars_cancel h
  simp only [List.cons.injEq, true_and] at ht
  obtain ⟨hq, hrest⟩ := quoteChars_cancel ht
  refine ⟨hq, ?_⟩
  cases v with
  | none =>
    cases v' with
    | none =>
      simp only [varSection, List.nil_append] at hrest
      exact ⟨rfl, nameSection_inj n n' hrest⟩
    | some jv' =>
      exfalso
      simp only [varSection, List.nil_append, List.cons_append,
        List.append_assoc] at hrest
      cases n with
      | none =>
        simp only [nameSection, List.nil_append, List.cons.injEq] at hrest
        exact absurd hrest.1 (by decide)
      | some s =>
        simp only [nameSection, List.cons_append, List.append_assoc,
          List.cons.injEq, true_and] at hrest
        obtain ⟨hkey, _⟩ := quoteChars_cancel hrest
        exact absurd hkey (by decide)
  | some jv =>
    cases v' with
    | none =>
      exfalso
      simp only [varSection, List.nil_append, List.cons_append,
        List.append_assoc] at hrest
      cases n' with
      | none =>
        simp only [nameSection, List.nil_append, List.cons.injEq] at hrest
        exact absurd hrest.1 (by decide)
      | some s' =>
        simp only [nameSection, List.cons_append, List.append_assoc,
          List.cons.injEq, true_and] at hrest
        obtain ⟨hkey, _⟩ := quoteChars_cancel hrest
        exact absurd hkey (by decide)
    | some jv' =>
      simp only [varSection, List.cons_append, List.append_assoc,
        List.cons.injEq, true_and] at hrest
      obtain ⟨_, ht2⟩ := quoteChars_cancel hrest
      simp only [List.cons.injEq, true_and] at ht2
      have hnd1 : noDigHead (nameSection n ++ ['}']) := by
        cases n with
        | none => exact (by decide : ¬ isDig '\x7d')
        | some s => exact (by decide : ¬ isDig ',')
      have hnd2 : noDigHead (nameSection n' ++ ['}']) := by
        cases n' with
        | none => exact (by decide : ¬ isDig '\x7d')
        | some s => exact (by decide : ¬ isDig ',')
      obtain ⟨hv, ht3⟩ := jChars_cancel jv jv' _ _ hnd1 hnd2 ht2
      exact ⟨by rw [hv], nameSection_inj n n' ht3⟩

/-- C9: the operation fingerprint is deterministic and, with the SHA-256
digest modelled as an injective function of the serialized key data,
faithful: two fingerprints coincide exactly when query text, variables
and operation name all coincide.  The right-to-left direction is
determinism (identical inputs give identical digests); the
left-to-right direction says any change in any of the three inputs
changes the digest, with hash collisions — the "overwhelming
probability" caveat — isolated in the injectivity hypothesis on the
digest. -/
theorem generateCacheKey_deterministic_faithful (hash : String → String)
    (hinj : Function.Injective hash) (q q' : String) (v v' : Option Json)
    (n n' : Option String) :
    generateCacheKey hash q v n = generateCacheKey hash q' v' n' ↔
      (q = q' ∧ v = v' ∧ n = n') := by
  constructor
  · intro h
    have hs := hinj h
    have hl : keyDataChars q v n = keyDataChars q' v' n' := by
      have := congrArg String.data hs
      simpa using this
    exact keyDataChars_inj q q' v v' n n' hl
  · rintro ⟨rfl, rfl, rfl⟩
    rfl

/-- C9 witness: with the identity digest, concrete distinct queries give
distinct fingerprints and identical inputs give identical ones. -/
theorem generateCacheKey_deterministic_faithful_witness :
    (generateCacheKey id "query GetPosts posts id" none (some "GetPosts") =
        generateCacheKey id "query GetUsers users id" none (some "GetPosts") ↔
      ("query GetPosts posts id" = "query GetUsers users id" ∧
        (none : Option Json) = none ∧
        (some "GetPosts" : Option String) = some "GetPosts")) ∧
    generateCacheKey id "query GetPosts posts id" none (some "GetPosts") =
      generateCacheKey id "query GetPosts posts id" none (some "GetPosts") :=
  ⟨generateCacheKey_deterministic_faithful id (fun _ _ hx => hx)
      "query GetPosts posts id" "query GetUsers users id" none none
      (some "GetPosts") (some "GetPosts"),
    (generateCacheKey_deterministic_faithful id (fun _ _ hx => hx)
      "query GetPosts posts id" "query GetPosts posts id" none none
      (some "GetPosts") (some "GetPosts")).mpr ⟨rfl, rfl, rfl⟩⟩

/-- C1: the spec requires a query of nesting depth 12 against
`maxDepth = 10` to be rejected with a depth error, `data: null` and zero
resolver invocations.  Evaluating the embedded source at such a query
shows the opposite: `didResolveOperation` only checks complexity (the
constructed `depthValidationRules` are never applied), the operation
passes the gate, its 13 resolvers run and data is returned with no
error. -/
theorem depth_limit_unenforced_eval :
    selDepth (chainSelection 12) = 12 ∧
    appComplexityConfig.maximumDepth = 10 ∧
    runPipeline appComplexityConfig [chainSelection 12] =
      { dataPresent := true, errors := [], resolverCalls := 13 } := by
  refine ⟨by decide, by decide, by decide⟩

/-- C4: the claim says the point-of-use check `requireAuth` throws a
user-visible Unauthenticated error when the context carries no
authenticated identity.  Evaluating the source at the anonymous context
shows `requireAuth` only tests the falsiness of the context object
itself and returns the absent (`undefined`) user without throwing; the
`me` resolver then resolves to a null user with no error. -/
theorem requireAuth_returns_absent_user_eval :
    requireAuth (some { isAuthenticated := false }) = .ok none ∧
    meResolver { isAuthenticated := false } = .ok none := by
  exact ⟨rfl, rfl⟩

/-- C6: identity resolution never fails the request: an absent
`Authorization` header, a header not of the form `Bearer <token>`, a
credential failing verification, and a subject absent from the store
each resolve to the anonymous context. -/
theorem createContext_resolves_anonymous_never_errors
    (verify : String → Option TokenPayload) (store : List StoredUser)
    (authHeader : Option String) :
    (authHeader = none →
      createContext verify store authHeader = { isAuthenticated := false }) ∧
    (extractTokenFromHeader authHeader = none →
      createContext verify store authHeader = { isAuthenticated := false }) ∧
    (∀ t, extractTokenFromHeader authHeader = some t → verify t = none →
      createContext verify store authHeader = { isAuthenticated := false }) ∧
    (∀ t p, extractTokenFromHeader authHeader = some t → verify t = some p →
      findById store p.userId = none →
      createContext verify store authHeader = { isAuthenticated := false }) := by
  refine ⟨?_, ?_, ?_, ?_⟩
  · intro h
    subst h
    rfl
  · intro h
    unfold createContext
    rw [h]
  · intro t ht hv
    unfold createContext
    rw [ht]
    by_cases he : t = ""
    · simp [he]
    · simp [he, hv]
  · intro t p ht hv hf
    unfold createContext
    rw [ht]
    by_cases he : t = ""
    · simp [he]
    · simp [he, hv, hf]

/-- C6 witness: the anonymous outcomes at concrete inputs. -/
theorem createContext_resolves_anonymous_never_errors_witness :
    createContext (fun _ => none) [] none = { isAuthenticated := false } ∧
    createContext (fun _ => none) [] (some "Basic xyz") =
      { isAuthenticated := false } ∧
    createContext (fun _ => none) [] (some "Bearer tok") =
      { isAuthenticated := false } := by
  refine ⟨(createContext_resolves_anonymous_never_errors (fun _ => none) [] none).1 rfl,
    (createContext_resolves_anonymous_never_errors (fun _ => none) []
      (some "Basic xyz")).2.1 (by decide),
    (createContext_resolves_anonymous_never_errors (fun _ => none) []
      (some "Bearer tok")).2.2.1 "tok" (by decide) rfl⟩

/-- C7: whenever the computed complexity exceeds the configured maximum,
the gate rejects before execution: the outcome is a single top-level
error whose extensions carry the measured complexity and the limit,
`data` is null and no resolver runs. -/
theorem complexity_gate_reports_and_blocks (cfg : ComplexityConfig)
    (op : List Selection)
    (h : getComplexity cfg.scalarCost op > cfg.maximumComplexity) :
    ∃ e, runPipeline cfg op =
        { dataPresent := false, errors := [e], resolverCalls := 0 } ∧
      e.extensions.code = "QUERY_COMPLEXITY_LIMIT_EXCEEDED" ∧
      e.extensions.complexity = getComplexity cfg.scalarCost op ∧
      e.extensions.maxComplexity = cfg.maximumComplexity := by
  refine ⟨createError cfg.maximumComplexity (getComplexity cfg.scalarCost op),
    ?_, rfl, rfl, rfl⟩
  unfold runPipeline didResolveOperation
  simp only [h, if_pos]

/-- C7 witness: a four-field operation against a limit of 3. -/
theorem complexity_gate_reports_and_blocks_witness :
    (getComplexity ({ maximumComplexity := 3 } : ComplexityConfig).scalarCost
        [chainSelection 3] > 3) ∧
    ∃ e, runPipeline { maximumComplexity := 3 } [chainSelection 3] =
        { dataPresent := false, errors := [e], resolverCalls := 0 } ∧
      e.extensions.code = "QUERY_COMPLEXITY_LIMIT_EXCEEDED" ∧
      e.extensions.complexity =
        getComplexity ({ maximumComplexity := 3 } : ComplexityConfig).scalarCost
          [chainSelection 3] ∧
      e.extensions.maxComplexity = 3 :=
  ⟨by decide,
    complexity_gate_reports_and_blocks { maximumComplexity := 3 }
      [chainSelection 3] (by decide)⟩

/-- C8: for an eligible lookup that finds a physically present entry,
the entry is served as a hit exactly when `now - created_at < ttl`
(milliseconds against `ttl` seconds × 1000); a fresh hit carries the
cached payload with `X-Cache: HIT` and the age; and once the age has
reached the ttl the lookup result coincides with the result over any
store in which the entry is physically absent — an expired entry behaves
identically to a miss. -/
theorem cache_hit_iff_fresh {α : Type} (hash : String → String)
    (cfg : CacheConfig) (store : List (String × CacheEntry α))
    (request : CacheRequest) (now : Int) (entry : CacheEntry α)
    (helig : opNameTruthy request.operationName = true)
    (hops : cfg.cachableOperations.contains "query" = true)
    (hskip : cfg.skipCache request.operationName = false)
    (hget : redisGet store
      (cfg.keyPrefix ++ generateCacheKey hash request.query request.vars
        request.operationName) = some entry) :
    ((responseForOperation hash cfg store request now).isSome ↔
      now - entry.timestamp < entry.ttl * 1000) ∧
    (now - entry.timestamp < entry.ttl * 1000 →
      responseForOperation hash cfg store request now =
        some { data := entry.data, xCache := "HIT"
               xCacheAge := Int.fdiv (now - entry.timestamp) 1000 }) ∧
    (entry.ttl * 1000 ≤ now - entry.timestamp →
      ∀ store2 : List (String × CacheEntry α),
        redisGet store2
          (cfg.keyPrefix ++ generateCacheKey hash request.query request.vars
            request.operationName) = none →
        responseForOperation hash cfg store request now =
          responseForOperation hash cfg store2 request now) := by
  unfold responseForOperation
  rw [helig, hops, hskip]
  simp only [Bool.true_and, Bool.not_false, Bool.and_true, if_true]
  rw [hget]
  constructor
  · by_cases hf : now - entry.timestamp < entry.ttl * 1000
    · simp [hf]
    · simp [hf]
  constructor
  · intro hf
    simp [hf]
  · intro hstale store2 hget2
    rw [hget2]
    have hf : ¬ now - entry.timestamp < entry.ttl * 1000 := by omega
    simp [hf]

/-- C8 witness: a fresh hit and a stale lookup at concrete inputs. -/
theorem cache_hit_iff_fresh_witness :
    ((responseForOperation (α := Nat) (fun _ => "K") appCacheConfig
        [("graphql:cache:K", { data := 7, timestamp := 1000, ttl := 300 })]
        { query := "query GetPosts posts", vars := none, operationName := some "GetPosts" }
        2000).isSome ↔ (2000 : Int) - 1000 < 300 * 1000) ∧
    responseForOperation (α := Nat) (fun _ => "K") appCacheConfig
      [("graphql:cache:K", { data := 7, timestamp := 1000, ttl := 300 })]
      { query := "query GetPosts posts", vars := none, operationName := some "GetPosts" }
      2000 =
      some { data := 7, xCache := "HIT", xCacheAge := Int.fdiv ((2000 : Int) - 1000) 1000 } := by
  have h := cache_hit_iff_fresh (α := Nat) (fun _ => "K") appCacheConfig
    [("graphql:cache:K", { data := 7, timestamp := 1000, ttl := 300 })]
    { query := "query GetPosts posts", vars := none, operationName := some "GetPosts" }
    2000 { data := 7, timestamp := 1000, ttl := 300 }
    (by decide) (by decide) (by decide) (by decide)
  exact ⟨h.1, h.2.1 (by decide)⟩

/-- C10: the claim says `deletePost` on an existing post with a caller
passing the ownership check deletes the post's comments and the post and
returns `true`.  Evaluating the source with the post's own author
calling shows the ownership check is handed the GraphQL context, whose
`role` and `_id` are `undefined`; `user._id.toString()` raises a
`TypeError`, the mutation fails and neither the post nor its comment is
deleted. -/
theorem deletePost_ownership_TypeError_eval :
    deletePost
      { posts := [{ postId := "p1", title := "t", content := "c",
                    author := "u1", published := true }]
        comments := [{ commentId := "c1", content := "hi", author := "u2",
                       post := "p1" }] }
      { user := some { userId := "u1", username := "bob", email := "b@x.com",
                       role := "USER" }
        isAuthenticated := true }
      "p1" =
      (.error (.typeError "Cannot read properties of undefined (reading toString)"),
        { posts := [{ postId := "p1", title := "t", content := "c",
                      author := "u1", published := true }]
          comments := [{ commentId := "c1", content := "hi", author := "u2",
                         post := "p1" }] }) := by
  rfl

/-- C3: the claim says a cache-eligible read (query type, name not in
the excluded list) executed twice with identical inputs within the TTL
gets `X-Cache: HIT` on the second execution.  Evaluating the source with
an operation named `GetPosts` shows: the read path treats it as eligible
(it tests the literal operation type `"query"` against
`cachableOperations`), but the write path tests the operation *name*
against the same list `["query"]`, so the successful first response is
never stored and the second, identical execution within the TTL finds no
entry — no hit is produced. -/
theorem cache_store_never_populated_eval :
    (opNameTruthy (some "GetPosts")
      && appCacheConfig.cachableOperations.contains "query"
      && !appCacheConfig.skipCache (some "GetPosts")) = true ∧
    shouldCacheResponse appCacheConfig
      { query := "query GetPosts posts id", vars := none,
        operationName := some "GetPosts" } false = false ∧
    willSendResponse (α := Nat) id appCacheConfig []
      { query := "query GetPosts posts id", vars := none,
        operationName := some "GetPosts" } 42 false 1000 = [] ∧
    responseForOperation (α := Nat) id appCacheConfig
      (willSendResponse (α := Nat) id appCacheConfig []
        { query := "query GetPosts posts id", vars := none,
          operationName := some "GetPosts" } 42 false 1000)
      { query := "query GetPosts posts id", vars := none,
        operationName := some "GetPosts" } 2000 = none := by
  refine ⟨by decide, by decide, by decide, by decide⟩

/-- C2 counterexample: subject `u1` logs out (the stored refresh marker
is cleared), yet a still-valid access credential for `u1` presented on
the next request resolves to the authenticated identity, not to
`Anonymous`: `createContext` re-fetches the subject but consults no
revocation marker. -/
theorem logout_access_token_still_authenticated_cex :
    (logout
        [{ userId := "u1", username := "bob", email := "b@x.com",
           role := "USER", refreshToken := some "rt" }]
        { user := some { userId := "u1", username := "bob",
                         email := "b@x.com", role := "USER",
                         refreshToken := some "rt" }
          isAuthenticated := true }).2 =
      [{ userId := "u1", username := "bob", email := "b@x.com",
         role := "USER", refreshToken := none }] ∧
    createContext
      (fun t => if t = "atok" then
          some { userId := "u1", username := "bob", email := "b@x.com",
                 role := "USER" }
        else none)
      (logout
        [{ userId := "u1", username := "bob", email := "b@x.com",
           role := "USER", refreshToken := some "rt" }]
        { user := some { userId := "u1", username := "bob",
                         email := "b@x.com", role := "USER",
                         refreshToken := some "rt" }
          isAuthenticated := true }).2
      (some "Bearer atok") =
      { user := some { userId := "u1", username := "bob", email := "b@x.com",
                       role := "USER", refreshToken := none }
        isAuthenticated := true } ∧
    (createContext
      (fun t => if t = "atok" then
          some { userId := "u1", username := "bob", email := "b@x.com",
                 role := "USER" }
        else none)
      (logout
        [{ userId := "u1", username := "bob", email := "b@x.com",
           role := "USER", refreshToken := some "rt" }]
        { user := some { userId := "u1", username := "bob",
                         email := "b@x.com", role := "USER",
                         refreshToken := some "rt" }
          isAuthenticated := true }).2
      (some "Bearer atok")).isAuthenticated = true := by
  refine ⟨by decide, by decide, by decide⟩

/-- Helper: after `logout`, any subject found in the store under the
logged-out user's id has a cleared refresh marker. -/
theorem logout_clears_refreshToken (store : List StoredUser)
    (context : GraphQLContext) (u : StoredUser) (hctx : context.user = some u)
    (uid : String) (u2 : StoredUser)
    (hfind : findById (logout store context).2 uid = some u2)
    (hid : u2.userId = u.userId) : u2.refreshToken = none := by
  have hlog : (logout store context).2 =
      store.map (fun x =>
        if x.userId = u.userId then { x with refreshToken := none } else x) := by
    simp [logout, requireAuth, hctx]
  rw [hlog] at hfind
  unfold findById at hfind
  rw [List.find?_map] at hfind
  rcases Option.map_eq_some'.mp hfind with ⟨x, hx, hfx⟩
  by_cases hcase : x.userId = u.userId
  · rw [← hfx]
    simp [hcase]
  · exfalso
    rw [← hfx] at hid
    simp [hcase] at hid

/-- C2 amended: logout clears the subject's stored refresh marker, which
revokes the *refresh* flow (the refresh-token exchange rejects with
`INVALID_REFRESH_TOKEN` for that subject), but a previously valid,
unexpired *access* credential still resolves to the authenticated
subject on the next request — identity resolution re-fetches the subject
yet checks only its existence, so only disappearance of the subject
yields `Anonymous`. -/
theorem logout_revokes_refresh_not_access
    (verify verifyRefresh : String → Option TokenPayload)
    (sign : TokenPayload → String)
    (store : List StoredUser) (context : GraphQLContext) (u : StoredUser)
    (authHeader : Option String) (token : String) (payload : TokenPayload)
    (hctx : context.user = some u)
    (hx : extractTokenFromHeader authHeader = some token)
    (hte : token ≠ "")
    (hv : verify token = some payload) :
    (logout store context).1 = .ok true ∧
    (∀ u2, findById (logout store context).2 payload.userId = some u2 →
      createContext verify (logout store context).2 authHeader =
        { user := some u2, isAuthenticated := true }) ∧
    (∀ rtok payload2, verifyRefresh rtok = some payload2 →
      payload2.userId = u.userId →
      refreshTokenMutation verifyRefresh sign (logout store context).2 rtok =
        .error (.graphQLError "Invalid refresh token" "INVALID_REFRESH_TOKEN")) ∧
    (findById (logout store context).2 payload.userId = none →
      createContext verify (logout store context).2 authHeader =
        { isAuthenticated := false }) := by
  refine ⟨?_, ?_, ?_, ?_⟩
  · simp [logout, requireAuth, hctx]
  · intro u2 hfind
    simp [createContext, hx, hte, hv, hfind]
  · intro rtok payload2 hvr hpid
    unfold refreshTokenMutation
    rw [hvr]
    cases hf : findById (logout store context).2 payload2.userId with
    | none => simp [hf]
    | some u3 =>
        have hid : u3.userId = u.userId := by
          have hp := List.find?_some hf
          simp only [findById, decide_eq_true_eq] at hp ⊢
          rw [hp, hpid]
        have hclear := logout_clears_refreshToken store context u hctx
          payload2.userId u3 hf hid
        simp [hf, hclear]
  · intro hfind
    simp [createContext, hx, hte, hv, hfind]

/-- C2 amended witness: the concrete logged-out subject `u1`. -/
theorem logout_revokes_refresh_not_access_witness :
    (logout
        [{ userId := "u1", username := "bob", email := "b@x.com",
           role := "USER", refreshToken := some "rt" }]
        { user := some { userId := "u1", username := "bob",
                         email := "b@x.com", role := "USER",
                         refreshToken := some "rt" }
          isAuthenticated := true }).1 = .ok true ∧
    refreshTokenMutation
      (fun t => if t = "rt" then
          some { userId := "u1", username := "bob", email := "b@x.com",
                 role := "USER" }
        else none)
      (fun _ => "newAccessToken")
      (logout
        [{ userId := "u1", username := "bob", email := "b@x.com",
           role := "USER", refreshToken := some "rt" }]
        { user := some { userId := "u1", username := "bob",
                         email := "b@x.com", role := "USER",
                         refreshToken := some "rt" }
          isAuthenticated := true }).2
      "rt" =
      .error (.graphQLError "Invalid refresh token" "INVALID_REFRESH_TOKEN") := by
  have h := logout_revokes_refresh_not_access
    (fun t => if t = "atok" then
        some { userId := "u1", username := "bob", email := "b@x.com",
               role := "USER" }
      else none)
    (fun t => if t = "rt" then
        some { userId := "u1", username := "bob", email := "b@x.com",
               role := "USER" }
      else none)
    (fun _ => "newAccessToken")
    [{ userId := "u1", username := "bob", email := "b@x.com",
       role := "USER", refreshToken := some "rt" }]
    { user := some { userId := "u1", username := "bob", email := "b@x.com",
                     role := "USER", refreshToken := some "rt" }
      isAuthenticated := true }
    { userId := "u1", username := "bob", email := "b@x.com", role := "USER",
      refreshToken := some "rt" }
    (some "Bearer atok") "atok"
    { userId := "u1", username := "bob", email := "b@x.com", role := "USER" }
    rfl (by decide) (by decide) (by decide)
  exact ⟨h.1, h.2.2.1 "rt"
    { userId := "u1", username := "bob", email := "b@x.com", role := "USER" }
    (by decide) rfl⟩

/-- C5 counterexample: a user whose stored role is the canonical admin
value `"ADMIN"` is accepted by the resolver-level comparison
(`user.role !== "ADMIN"` gates denial) but denied by `requireAdmin`,
which tests membership in `["admin"]` — so the two checks do not accept
the same set of users. -/
theorem requireAdmin_disagrees_with_resolver_check_cex :
    resolverAdminCheck
      { userId := "a1", username := "root", email := "a@x.com",
        role := "ADMIN" } = true ∧
    (requireAdmin (some (userToJs
      { userId := "a1", username := "root", email := "a@x.com",
        role := "ADMIN" }))).isOk = false ∧
    postQueryResolver
      { posts := [{ postId := "p1", title := "t", content := "c",
                    author := "u9", published := false }], comments := [] }
      "p1"
      { user := some { userId := "a1", username := "root",
                       email := "a@x.com", role := "ADMIN" }
        isAuthenticated := true } =
      .ok { postId := "p1", title := "t", content := "c", author := "u9",
            published := false } := by
  refine ⟨rfl, by decide, by rfl⟩

/-- C5 amended: role comparison is *not* consistent across modules:
`requireAdmin` tests against the lowercase string `"admin"`, which
matches no canonical `UserRole` value, so it denies every user whose
stored role is canonical (and, invoked on the GraphQL context as the
resolvers do, it denies unconditionally), while the resolver-level
checks accept exactly the users with role `"ADMIN"`; the two checks
disagree precisely on the admin users. -/
theorem role_casing_mismatch_amended (u : StoredUser)
    (h : u.role ∈ (["USER", "ADMIN", "MODERATOR"] : List String)) :
    (requireAdmin (some (userToJs u))).isOk = false ∧
    (resolverAdminCheck u = true ↔ u.role = "ADMIN") ∧
    (∀ c : GraphQLContext, (requireAdmin (some (contextToJs c))).isOk = false) := by
  refine ⟨?_, by simp [resolverAdminCheck], ?_⟩
  · simp only [List.mem_cons, List.not_mem_nil, or_false] at h
    unfold requireAdmin requireRole requireAuthJs userToJs
    rcases h with h | h | h <;> simp [h, Except.isOk, Except.toBool]
  · intro c
    rfl

/-- C5 amended witness: a canonical non-admin user, and the context-call
denial at a concrete authenticated context. -/
theorem role_casing_mismatch_amended_witness :
    (requireAdmin (some (userToJs
      { userId := "u1", username := "bob", email := "b@x.com",
        role := "USER" }))).isOk = false ∧
    (resolverAdminCheck
        { userId := "u1", username := "bob", email := "b@x.com",
          role := "USER" } = true ↔
      ({ userId := "u1", username := "bob", email := "b@x.com",
         role := "USER" } : StoredUser).role = "ADMIN") ∧
    (requireAdmin (some (contextToJs
      { user := some { userId := "u1", username := "bob", email := "b@x.com",
                       role := "USER" }
        isAuthenticated := true }))).isOk = false := by
  have h := role_casing_mismatch_amended
    { userId := "u1", username := "bob", email := "b@x.com", role := "USER" }
    (by decide)
  exact ⟨h.1, h.2.1, h.2.2
    { user := some { userId := "u1", username := "bob", email := "b@x.com",
                     role := "USER" }
      isAuthenticated := true }⟩

end ApolloStarter
